import Mathlib

/-!
Shallow embedding of the diagnostic-agent core (`DiagnosticAgentGUI` in
`Diagnosis Agent.py`): probability-model construction from a labeled
dataset, posterior inference from observed yes/no answers, greedy
next-question selection by variance, and the session bookkeeping done by
`record_symptom` / `show_final_diagnosis`.

Python floats are modelled as exact rationals (ℚ); Python dicts keyed by
a list of insertion-ordered keys are modelled either as association lists
(when the key order matters to a claim) or as total functions (when only
lookup matters).  Python's `d.get(k, default)` becomes `Option.getD` on an
`Option ℚ`-valued table.
-/

namespace DiagnosticAgent

/-- A dataset as loaded by `pd.read_csv`: every column except the last is a
binary symptom indicator column, the last column is the condition label.
Each record carries its symptom values (aligned with `symptomCols`) and its
label. -/
structure Dataset where
  symptomCols : List String
  records : List (List ℚ × String)

/-- Value of symptom column `s` in the row `r` (aligned with
`ds.symptomCols`); out-of-range positions read as 0, which never happens for
well-formed rows. -/
def symptomValue (ds : Dataset) (r : List ℚ) (s : String) : ℚ :=
  match ds.symptomCols.indexOf? s with
  | some i => r.getD i 0
  | none => 0

/-- Distinct elements in order of first appearance, as `pandas.unique`
produces the condition list from the label column.  `seen` accumulates the
elements already emitted. -/
def uniqueFirstAux (seen : List String) : List String → List String
  | [] => []
  | a :: l =>
    if a ∈ seen then uniqueFirstAux seen l
    else a :: uniqueFirstAux (a :: seen) l

def uniqueFirst (l : List String) : List String :=
  uniqueFirstAux [] l

/-- Number of records carrying label `c`. -/
def countLabel (ds : Dataset) (c : String) : Nat :=
  (ds.records.filter (fun r => r.2 = c)).length

/-- Column sum of symptom `s` over the records with label `c`
(`condition_data[self.symptoms].sum(axis=0)`). -/
def condSum (ds : Dataset) (c : String) (s : String) : ℚ :=
  ((ds.records.filter (fun r => r.2 = c)).map (fun r => symptomValue ds r.1 s)).sum

/-- The probability model the constructor derives from the data:
`symptoms = list(data.columns[:-1])`, `conditions` = distinct labels in
first-appearance order, `prior_probs` from `value_counts(normalize=True)`,
`conditional_probs[c][s]` = mean of column `s` over records labeled `c`.
The inner conditional dict for condition `c` has exactly the symptom columns
as keys, so the table is `Option`-valued in the symptom argument; the code
only ever reads `prior_probs`/`conditional_probs` at `c ∈ conditions`, where
the Python dicts are defined, so modelling them as total functions in `c`
loses nothing. -/
structure Model where
  symptoms : List String
  conditions : List String
  priors : String → ℚ
  condTable : String → String → Option ℚ

def buildModel (ds : Dataset) : Model :=
  { symptoms := ds.symptomCols
    conditions := uniqueFirst (ds.records.map Prod.snd)
    priors := fun c => (countLabel ds c : ℚ) / (ds.records.length : ℚ)
    condTable := fun c s =>
      if s ∈ ds.symptomCols then some (condSum ds c s / (countLabel ds c : ℚ))
      else none }

/-- The defensive floor `1e-6` used by `infer_condition` for a symptom with
no entry in `conditional_probs[condition]`. -/
def floorProb : ℚ := 1 / 1000000

/-- The multiplicative contribution of one observed `(symptom, value)` pair
to a condition's running product in `infer_condition`: the `if value == 1 /
elif value == 0` chain; any other value leaves the product unchanged. -/
def factor (m : Model) (c : String) (sv : String × Int) : ℚ :=
  if sv.2 = 1 then (m.condTable c sv.1).getD floorProb
  else if sv.2 = 0 then 1 - (m.condTable c sv.1).getD floorProb
  else 1

/-- The unnormalized score of condition `c`: the loop
`prob = prior; for symptom, value in observed_symptoms.items(): prob *= …`. -/
def unnormScore (m : Model) (obs : List (String × Int)) (c : String) : ℚ :=
  obs.foldl (fun p sv => p * factor m c sv) (m.priors c)

/-- `infer_condition`: score every condition, then either normalize by the
total or, when the total is exactly zero, return the uniform distribution
`1 / len(conditions)`.  The result dict is keyed by `conditions` in order.
(When `conditions = []` the Python code would raise `ZeroDivisionError` on
`1 / len(self.conditions)`; every claim below assumes a model built from a
nonempty dataset, where `conditions ≠ []`.) -/
def inferCondition (m : Model) (obs : List (String × Int)) : List (String × ℚ) :=
  let scores := m.conditions.map (fun c => (c, unnormScore m obs c))
  let total := (scores.map Prod.snd).sum
  if total = 0 then
    m.conditions.map (fun c => (c, 1 / (m.conditions.length : ℚ)))
  else
    scores.map (fun p => (p.1, p.2 / total))

/-- `np.var` with the default `ddof = 0`: the population variance, the mean
of squared deviations from the mean.  (`np.var([])` would be NaN; the list
is `conditions`, nonempty for every model used below.) -/
def variance (xs : List ℚ) : ℚ :=
  (xs.map (fun x => (x - xs.sum / (xs.length : ℚ)) ^ 2)).sum / (xs.length : ℚ)

/-- Variance of `[conditional_probs[cond].get(symptom, 0) for cond in
conditions]` — note the missing-entry default here is `0`, not the floor. -/
def symptomVariance (m : Model) (s : String) : ℚ :=
  variance (m.conditions.map (fun c => (m.condTable c s).getD 0))

/-- The fold inside Python's `max(xs, key=f)`: the running best is replaced
only when the new key is strictly greater, so the first element attaining
the maximal key wins. -/
def maxFold (f : String → ℚ) (a : String) (l : List String) : String :=
  l.foldl (fun b x => if f b < f x then x else b) a

/-- Python's `max(xs, key=f)` over a possibly-empty iterable (`max` on an
empty dict is never reached: the code returns `None` first). -/
def maxBy (f : String → ℚ) : List String → Option String
  | [] => none
  | a :: l => some (maxFold f a l)

/-- `select_next_question`: filter out asked symptoms (preserving column
order), return `None` when nothing remains, else the remaining symptom of
maximal variance (first one on ties). -/
def selectNextQuestion (m : Model) (asked : List String) : Option String :=
  maxBy (symptomVariance m) (m.symptoms.filter (fun s => s ∉ asked))

/-- Insertion into the Python set `asked_symptoms`: membership-preserving,
no duplicates. -/
def setInsert (l : List String) (x : String) : List String :=
  if x ∈ l then l else l ++ [x]

/-- Assignment `observed_symptoms[k] = v` on a Python dict modelled as an
association list in insertion order: update in place if the key exists,
otherwise append. -/
def dictInsert (d : List (String × Int)) (k : String) (v : Int) : List (String × Int) :=
  if k ∈ d.map Prod.fst then d.map (fun p => if p.1 = k then (k, v) else p)
  else d ++ [(k, v)]

/-- The session state `record_symptom` / `show_final_diagnosis` mutate:
`observed_symptoms`, `asked_symptoms`, and whether the answer buttons have
been disabled by `show_final_diagnosis` (the terminal state). -/
structure SessState where
  observed : List (String × Int)
  asked : List String
  terminated : Bool

/-- Session start: empty observation and asked sets; `setup_gui` immediately
calls `ask_next_question`, which calls `show_final_diagnosis` (disabling the
buttons) when no symptom is available at all. -/
def startSession (m : Model) : SessState :=
  { observed := [], asked := [], terminated := (selectNextQuestion m []).isNone }

/-- `show_final_diagnosis`: disables the buttons; the observation and asked
sets are untouched. -/
def showFinalDiagnosis (st : SessState) : SessState :=
  { st with terminated := true }

/-- `record_symptom(value)`: a no-op when the buttons are disabled or when
`select_next_question` yields `None`; otherwise records the pending symptom
with the given value (whatever it is), adds it to the asked set, and — via
`ask_next_question` — disables the buttons when no symptom remains. -/
def recordSymptom (m : Model) (st : SessState) (v : Int) : SessState :=
  if st.terminated then st
  else
    match selectNextQuestion m st.asked with
    | none => st
    | some q =>
      let asked := setInsert st.asked q
      { observed := dictInsert st.observed q v
        asked := asked
        terminated := (selectNextQuestion m asked).isNone }

/-- The worked example of spec §8: symptoms A, B; three records of X with
(A=1, B=0) and one record of Y with (A=0, B=1). -/
def demoDataset : Dataset :=
  { symptomCols := ["A", "B"]
    records := [([1, 0], "X"), ([1, 0], "X"), ([1, 0], "X"), ([0, 1], "Y")] }

def demoModel : Model := buildModel demoDataset

/-! ### Generic list lemmas -/

lemma foldl_mul_eq {α : Type} (f : α → ℚ) :
    ∀ (l : List α) (a : ℚ), l.foldl (fun p x => p * f x) a = a * (l.map f).prod
  | [], a => by simp
  | x :: l, a => by
    rw [List.foldl_cons, foldl_mul_eq f l (a * f x)]
    simp [mul_assoc]

lemma sum_map_div (l : List ℚ) (t : ℚ) : (l.map (fun x => x / t)).sum = l.sum / t := by
  induction l with
  | nil => simp
  | cons x l ih => simp [ih, add_div]

lemma sum_le_length (l : List ℚ) (h : ∀ x ∈ l, x ≤ 1) : l.sum ≤ (l.length : ℚ) := by
  induction l with
  | nil => simp
  | cons x l ih =>
    simp only [List.sum_cons, List.length_cons]
    push_cast
    have h1 := ih (fun y hy => h y (List.mem_cons_of_mem _ hy))
    have h2 := h x (List.mem_cons_self x l)
    linarith

lemma length_filter_add_length_filter_not {α : Type} (p : α → Bool) (l : List α) :
    (l.filter p).length + (l.filter (fun x => !p x)).length = l.length := by
  induction l with
  | nil => rfl
  | cons x l ih => cases hp : p x <;> simp [List.filter_cons, hp] <;> omega

lemma mem_uniqueFirstAux (x : String) :
    ∀ (l seen : List String), x ∈ uniqueFirstAux seen l ↔ x ∈ l ∧ x ∉ seen
  | [], seen => by simp [uniqueFirstAux]
  | a :: l, seen => by
    simp only [uniqueFirstAux]
    by_cases ha : a ∈ seen
    · rw [if_pos ha, mem_uniqueFirstAux x l seen]
      simp only [List.mem_cons]
      constructor
      · rintro ⟨h1, h2⟩; exact ⟨Or.inr h1, h2⟩
      · rintro ⟨h1 | h1, h2⟩
        · exact absurd (h1 ▸ ha) h2
        · exact ⟨h1, h2⟩
    · rw [if_neg ha]
      simp only [List.mem_cons, mem_uniqueFirstAux x l (a :: seen)]
      by_cases hx : x = a
      · subst hx; simp [ha]
      · simp [hx]

lemma nodup_uniqueFirstAux : ∀ (l seen : List String), (uniqueFirstAux seen l).Nodup
  | [], _ => by simp [uniqueFirstAux]
  | a :: l, seen => by
    simp only [uniqueFirstAux]
    by_cases ha : a ∈ seen
    · rw [if_pos ha]; exact nodup_uniqueFirstAux l seen
    · rw [if_neg ha]
      refine List.nodup_cons.mpr ⟨?_, nodup_uniqueFirstAux l (a :: seen)⟩
      intro hmem
      exact ((mem_uniqueFirstAux a l (a :: seen)).mp hmem).2 (List.mem_cons_self a seen)

lemma mem_uniqueFirst (x : String) (l : List String) : x ∈ uniqueFirst l ↔ x ∈ l := by
  simp [uniqueFirst, mem_uniqueFirstAux]

lemma nodup_uniqueFirst (l : List String) : (uniqueFirst l).Nodup :=
  nodup_uniqueFirstAux l []

lemma sum_length_filter_eq :
    ∀ (U : List String), U.Nodup → ∀ (L : List String), (∀ x ∈ L, x ∈ U) →
      (U.map (fun c => (L.filter (fun x => x = c)).length)).sum = L.length
  | [], _, L, hL => by
    have hnil : L = [] := List.eq_nil_iff_forall_not_mem.mpr (fun a ha => by simpa using hL a ha)
    simp [hnil]
  | u :: U, hU, L, hL => by
    have hu : u ∉ U := (List.nodup_cons.mp hU).1
    have hU2 : U.Nodup := (List.nodup_cons.mp hU).2
    have key : ∀ c ∈ U, (L.filter (fun x => x = c)).length
        = ((L.filter (fun x => !decide (x = u))).filter (fun x => x = c)).length := by
      intro c hc
      have hcu : c ≠ u := fun h => hu (h ▸ hc)
      have heq : (L.filter (fun x => !decide (x = u))).filter (fun x => x = c)
          = L.filter (fun x => x = c) := by
        rw [List.filter_filter]
        apply List.filter_congr
        intro x _
        by_cases hxc : x = c
        · subst hxc; simp [hcu]
        · simp [hxc]
      rw [heq]
    have hL2 : ∀ x ∈ L.filter (fun x => !decide (x = u)), x ∈ U := by
      intro x hx
      rcases List.mem_filter.mp hx with ⟨hxL, hxu⟩
      rcases List.mem_cons.mp (hL x hxL) with h | h
      · simp [h] at hxu
      · exact h
    have ih := sum_length_filter_eq U hU2 (L.filter (fun x => !decide (x = u))) hL2
    rw [List.map_cons, List.sum_cons, List.map_congr_left key, ih]
    exact length_filter_add_length_filter_not (fun x => decide (x = u)) L

/-! ### Facts about the probability model -/

/-- Every value stored in the conditional table lies in `[0, 1]`.  Holds for
every model built from a dataset of 0/1 indicator values. -/
def CondTableBounded (m : Model) : Prop :=
  ∀ c s p, m.condTable c s = some p → 0 ≤ p ∧ p ≤ 1

/-- Every prior is non-negative.  Holds for every built model. -/
def PriorsNonneg (m : Model) : Prop :=
  ∀ c, 0 ≤ m.priors c

lemma getD_floor_bounds (m : Model) (c s : String) (hct : CondTableBounded m) :
    0 ≤ (m.condTable c s).getD floorProb ∧ (m.condTable c s).getD floorProb ≤ 1 := by
  cases hcs : m.condTable c s with
  | none => norm_num [floorProb]
  | some p => simpa using hct c s p hcs

lemma factor_bounds (m : Model) (c : String) (sv : String × Int) (hct : CondTableBounded m) :
    0 ≤ factor m c sv ∧ factor m c sv ≤ 1 := by
  have hb := getD_floor_bounds m c sv.1 hct
  unfold factor
  split
  · exact hb
  · split
    · exact ⟨by linarith [hb.2], by linarith [hb.1]⟩
    · norm_num

/-- The loop of `infer_condition` in closed form: the prior times the product
of the per-observation factors. -/
lemma unnormScore_eq (m : Model) (obs : List (String × Int)) (c : String) :
    unnormScore m obs c = m.priors c * (obs.map (factor m c)).prod :=
  foldl_mul_eq (factor m c) obs (m.priors c)

lemma unnormScore_nonneg (m : Model) (obs : List (String × Int)) (c : String)
    (hpri : PriorsNonneg m) (hct : CondTableBounded m) : 0 ≤ unnormScore m obs c := by
  rw [unnormScore_eq]
  refine mul_nonneg (hpri c) (List.prod_nonneg ?_)
  intro a ha
  rcases List.mem_map.mp ha with ⟨sv, _, rfl⟩
  exact (factor_bounds m c sv hct).1

lemma buildModel_priors_nonneg (ds : Dataset) : PriorsNonneg (buildModel ds) := by
  intro c
  exact div_nonneg (Nat.cast_nonneg _) (Nat.cast_nonneg _)

lemma symptomValue_bounds (ds : Dataset) (r : List ℚ) (hr : ∀ v ∈ r, 0 ≤ v ∧ v ≤ 1)
    (s : String) : 0 ≤ symptomValue ds r s ∧ symptomValue ds r s ≤ 1 := by
  unfold symptomValue
  cases ds.symptomCols.indexOf? s with
  | none => norm_num
  | some i =>
    cases hg : r[i]? with
    | none => simp [List.getD_eq_getElem?_getD, hg]
    | some v =>
      have hv := hr v (List.getElem?_mem hg)
      simp [List.getD_eq_getElem?_getD, hg, hv.1, hv.2]

lemma buildModel_condTable_bounded (ds : Dataset)
    (hv : ∀ r ∈ ds.records, ∀ v ∈ r.1, 0 ≤ v ∧ v ≤ 1) :
    CondTableBounded (buildModel ds) := by
  intro c s p hp
  simp only [buildModel] at hp
  split at hp
  case isFalse h => cases hp
  case isTrue h =>
    have hval : ∀ r ∈ ds.records.filter (fun r => r.2 = c),
        0 ≤ symptomValue ds r.1 s ∧ symptomValue ds r.1 s ≤ 1 := by
      intro r hrmem
      exact symptomValue_bounds ds r.1 (hv r (List.mem_filter.mp hrmem).1) s
    have hsum0 : 0 ≤ condSum ds c s := by
      apply List.sum_nonneg
      intro x hx
      rcases List.mem_map.mp hx with ⟨r, hrm, rfl⟩
      exact (hval r hrm).1
    have hin : p = condSum ds c s / (countLabel ds c : ℚ) := by
      injection hp with hp2
      exact hp2.symm
    subst hin
    constructor
    · exact div_nonneg hsum0 (Nat.cast_nonneg _)
    · by_cases h0 : countLabel ds c = 0
      · have hnil : ds.records.filter (fun r => r.2 = c) = [] :=
          List.length_eq_zero.mp h0
        simp [condSum, hnil]
      · have hpos : 0 < (countLabel ds c : ℚ) := by
          exact_mod_cast Nat.pos_of_ne_zero h0
        rw [div_le_one hpos]
        have hle := sum_le_length
          ((ds.records.filter (fun r => r.2 = c)).map (fun r => symptomValue ds r.1 s))
          (by intro x hx
              rcases List.mem_map.mp hx with ⟨r, hrm, rfl⟩
              exact (hval r hrm).2)
        rw [List.length_map] at hle
        exact hle

/-! ### Facts about `infer_condition` -/

lemma inferCondition_eq (m : Model) (obs : List (String × Int)) :
    inferCondition m obs =
      if (m.conditions.map (fun c => unnormScore m obs c)).sum = 0 then
        m.conditions.map (fun c => (c, 1 / (m.conditions.length : ℚ)))
      else m.conditions.map (fun c =>
        (c, unnormScore m obs c / (m.conditions.map (fun c => unnormScore m obs c)).sum)) := by
  simp only [inferCondition, List.map_map, Function.comp_def]

lemma total_nonneg (m : Model) (obs : List (String × Int))
    (hpri : PriorsNonneg m) (hct : CondTableBounded m) :
    0 ≤ (m.conditions.map (fun c => unnormScore m obs c)).sum := by
  apply List.sum_nonneg
  intro x hx
  rcases List.mem_map.mp hx with ⟨c, _, rfl⟩
  exact unnormScore_nonneg m obs c hpri hct

lemma conditions_length_cast_ne_zero (m : Model) (hne : m.conditions ≠ []) :
    (m.conditions.length : ℚ) ≠ 0 := by
  have hlen : m.conditions.length ≠ 0 := fun h => hne (List.length_eq_zero.mp h)
  exact_mod_cast hlen

/-- **C1**: for every observation set (any list of symptom/answer pairs,
including the empty one), `infer_condition` on a model with a nonempty
condition set, non-negative priors and a `[0,1]`-valued conditional table
(as every model built from a 0/1 dataset is) returns a mapping whose key
list is exactly the full condition set, whose values are all non-negative
and sum to exactly 1; and when every condition's raw score is zero the
result is the uniform distribution over all conditions. -/
theorem infer_total_distribution (m : Model) (obs : List (String × Int))
    (hne : m.conditions ≠ []) (hpri : PriorsNonneg m) (hct : CondTableBounded m) :
    (inferCondition m obs).map Prod.fst = m.conditions ∧
    (∀ pr ∈ inferCondition m obs, 0 ≤ pr.2) ∧
    ((inferCondition m obs).map Prod.snd).sum = 1 ∧
    ((∀ c ∈ m.conditions, unnormScore m obs c = 0) →
      inferCondition m obs = m.conditions.map (fun c => (c, 1 / (m.conditions.length : ℚ)))) := by
  have hn : (m.conditions.length : ℚ) ≠ 0 := conditions_length_cast_ne_zero m hne
  refine ⟨?_, ?_, ?_, ?_⟩
  · rw [inferCondition_eq]
    split <;> simp [List.map_map, Function.comp_def]
  · rw [inferCondition_eq]
    split
    · intro pr hpr
      rcases List.mem_map.mp hpr with ⟨c, _, rfl⟩
      exact div_nonneg zero_le_one (Nat.cast_nonneg _)
    · intro pr hpr
      rcases List.mem_map.mp hpr with ⟨c, _, rfl⟩
      exact div_nonneg (unnormScore_nonneg m obs c hpri hct) (total_nonneg m obs hpri hct)
  · rw [inferCondition_eq]
    by_cases h0 : (m.conditions.map (fun c => unnormScore m obs c)).sum = 0
    · rw [if_pos h0, List.map_map]
      show ((m.conditions.map (Function.const String (1 / (m.conditions.length : ℚ))))).sum = 1
      rw [List.map_const, List.sum_replicate, nsmul_eq_mul]
      field_simp
    · rw [if_neg h0, List.map_map]
      show ((m.conditions.map ((fun x => x /
          (m.conditions.map (fun c => unnormScore m obs c)).sum) ∘
          (fun c => unnormScore m obs c)))).sum = 1
      rw [← List.map_map, sum_map_div, div_self h0]
  · intro hz
    have h0 : (m.conditions.map (fun c => unnormScore m obs c)).sum = 0 := by
      apply List.sum_eq_zero
      intro x hx
      rcases List.mem_map.mp hx with ⟨c, hc, rfl⟩
      exact hz c hc
    rw [inferCondition_eq, if_pos h0]

/-- Witness for C1 at the §8 example model and the observation `{A ↦ 1}`. -/
theorem infer_total_distribution_witness :
    ((inferCondition demoModel [("A", 1)]).map Prod.snd).sum = 1 ∧
    (inferCondition demoModel [("A", 1)]).map Prod.fst = demoModel.conditions :=
  have hne : demoModel.conditions ≠ [] := by
    norm_num +decide [demoModel, buildModel, demoDataset, uniqueFirst, uniqueFirstAux]
  have hv : ∀ r ∈ demoDataset.records, ∀ v ∈ r.1, 0 ≤ v ∧ v ≤ 1 := by
    intro r hr v hv
    fin_cases hr <;> fin_cases hv <;> norm_num
  have h := infer_total_distribution demoModel [("A", 1)] hne
    (buildModel_priors_nonneg demoDataset) (buildModel_condTable_bounded demoDataset hv)
  ⟨h.2.2.1, h.1⟩

lemma countLabel_eq (ds : Dataset) (c : String) :
    countLabel ds c = ((ds.records.map Prod.snd).filter (fun x => x = c)).length := by
  rw [countLabel, List.filter_map, List.length_map]
  rfl

/-- The priors of a built model form a distribution: over the discovered
condition list they sum to exactly 1 (each is `count/total` and the distinct
labels partition the records). -/
lemma sum_priors_eq_one (ds : Dataset) (h : ds.records ≠ []) :
    ((buildModel ds).conditions.map (fun c => (buildModel ds).priors c)).sum = 1 := by
  have hN : (ds.records.length : ℚ) ≠ 0 := by
    have hlen : ds.records.length ≠ 0 := fun hh => h (List.length_eq_zero.mp hh)
    exact_mod_cast hlen
  simp only [buildModel]
  have hcast : ∀ c ∈ uniqueFirst (ds.records.map Prod.snd),
      (countLabel ds c : ℚ) / (ds.records.length : ℚ)
        = ((((ds.records.map Prod.snd).filter (fun x => x = c)).length : ℚ)
            / (ds.records.length : ℚ)) := by
    intro c _
    rw [countLabel_eq]
  rw [List.map_congr_left hcast]
  show (List.map ((fun x => x / (ds.records.length : ℚ)) ∘
      (fun c => ((((ds.records.map Prod.snd).filter (fun x => x = c)).length : ℕ) : ℚ)))
      (uniqueFirst (ds.records.map Prod.snd))).sum = 1
  rw [← List.map_map, sum_map_div]
  show (List.map ((Nat.cast : ℕ → ℚ) ∘
      (fun c => ((ds.records.map Prod.snd).filter (fun x => x = c)).length))
      (uniqueFirst (ds.records.map Prod.snd))).sum / (ds.records.length : ℚ) = 1
  rw [← List.map_map, ← Nat.cast_list_sum,
    sum_length_filter_eq (uniqueFirst (ds.records.map Prod.snd))
      (nodup_uniqueFirst _) (ds.records.map Prod.snd)
      (fun x hx => (mem_uniqueFirst x _).mpr hx),
    List.length_map]
  exact div_self hN

/-- **C2**: `infer_condition` applied to the empty observation set returns
exactly the prior distribution: the result is the condition list paired with
the priors, unchanged. -/
theorem infer_empty_eq_priors (ds : Dataset) (h : ds.records ≠ []) :
    inferCondition (buildModel ds) [] =
      (buildModel ds).conditions.map (fun c => (c, (buildModel ds).priors c)) := by
  have hsc : ∀ c, unnormScore (buildModel ds) [] c = (buildModel ds).priors c := by
    intro c
    rw [unnormScore_eq]
    simp
  have htot : ((buildModel ds).conditions.map
      (fun c => unnormScore (buildModel ds) [] c)).sum = 1 := by
    rw [List.map_congr_left (fun c _ => hsc c)]
    exact sum_priors_eq_one ds h
  rw [inferCondition_eq, if_neg (by rw [htot]; norm_num), htot]
  apply List.map_congr_left
  intro c _
  rw [hsc c, div_one]

/-- Witness for C2 at the §8 example dataset:
`Infer({}) = {X ↦ 3/4, Y ↦ 1/4}`, the prior distribution. -/
theorem infer_empty_eq_priors_witness :
    inferCondition (buildModel demoDataset) [] =
      (buildModel demoDataset).conditions.map
        (fun c => (c, (buildModel demoDataset).priors c)) :=
  infer_empty_eq_priors demoDataset (by simp [demoDataset])

/-- **C3**: for observations whose answers are all 0/1, each condition's
unnormalized score is the prior times the product, over the observed
`(symptom, value)` pairs, of the conditional probability for value 1 and its
complement for value 0, with the constant `1e-6` substituted when the table
has no entry for the pair. -/
theorem unnormScore_formula (m : Model) (obs : List (String × Int)) (c : String)
    (hobs : ∀ sv ∈ obs, sv.2 = 0 ∨ sv.2 = 1) :
    unnormScore m obs c = m.priors c *
      (obs.map (fun sv =>
        if sv.2 = 1 then (m.condTable c sv.1).getD floorProb
        else 1 - (m.condTable c sv.1).getD floorProb)).prod := by
  have hmap : obs.map (factor m c) = obs.map (fun sv =>
      if sv.2 = 1 then (m.condTable c sv.1).getD floorProb
      else 1 - (m.condTable c sv.1).getD floorProb) := by
    apply List.map_congr_left
    intro sv hsv
    rcases hobs sv hsv with h | h <;> simp [factor, h]
  rw [unnormScore_eq, hmap]

/-- Witness for C3 at the §8 model with observations `{A ↦ 1, B ↦ 0}`. -/
theorem unnormScore_formula_witness :
    unnormScore demoModel [("A", 1), ("B", 0)] "X" = demoModel.priors "X" *
      (([("A", 1), ("B", 0)] : List (String × Int)).map (fun sv =>
        if sv.2 = 1 then (demoModel.condTable "X" sv.1).getD floorProb
        else 1 - (demoModel.condTable "X" sv.1).getD floorProb)).prod :=
  unnormScore_formula demoModel [("A", 1), ("B", 0)] "X" (by decide)

/-- **C10**: an observation entry whose value is neither 0 nor 1 contributes
no factor: appending such an entry leaves the returned posterior unchanged. -/
theorem infer_skips_nonbinary (m : Model) (obs : List (String × Int)) (s : String)
    (v : Int) (hv0 : v ≠ 0) (hv1 : v ≠ 1) :
    inferCondition m (obs ++ [(s, v)]) = inferCondition m obs := by
  have hsc : ∀ c, unnormScore m (obs ++ [(s, v)]) c = unnormScore m obs c := by
    intro c
    rw [unnormScore_eq, unnormScore_eq, List.map_append, List.prod_append]
    simp [factor, hv0, hv1]
  rw [inferCondition_eq, inferCondition_eq]
  simp only [hsc]

/-- Witness for C10: appending `{B ↦ 7}` to `{A ↦ 1}` changes nothing. -/
theorem infer_skips_nonbinary_witness :
    inferCondition demoModel ([("A", 1)] ++ [("B", 7)]) = inferCondition demoModel [("A", 1)] :=
  infer_skips_nonbinary demoModel [("A", 1)] "B" 7 (by decide) (by decide)

/-! ### Facts about `select_next_question` -/

/-- The `max`-fold splits its input at its result: every earlier element has
a strictly smaller key (so the first maximum wins) and every later element a
smaller-or-equal key. -/
lemma maxFold_split (f : String → ℚ) :
    ∀ (l : List String) (a : String),
      ∃ l1 l2, a :: l = l1 ++ maxFold f a l :: l2 ∧
        (∀ t ∈ l1, f t < f (maxFold f a l)) ∧
        (∀ t ∈ l2, f t ≤ f (maxFold f a l))
  | [], a => ⟨[], [], rfl, by simp, by simp⟩
  | x :: l, a => by
    by_cases hax : f a < f x
    · have hstep : maxFold f a (x :: l) = maxFold f x l := by
        simp [maxFold, List.foldl_cons, if_pos hax]
      obtain ⟨l1, l2, heq, h1, h2⟩ := maxFold_split f l x
      rw [hstep]
      refine ⟨a :: l1, l2, ?_, ?_, h2⟩
      · rw [List.cons_append, ← heq]
      · intro t ht
        rcases List.mem_cons.mp ht with rfl | ht2
        · cases l1 with
          | nil =>
            have hx2 : x = maxFold f x l := by
              simpa using congrArg (fun u => u.headD x) heq
            exact hx2 ▸ hax
          | cons b m =>
            have hb : b = x := by
              simpa using congrArg (fun u => u.headD x) heq.symm
            exact lt_trans (hb ▸ hax) (h1 b (List.mem_cons_self b m))
        · exact h1 t ht2
    · have hstep : maxFold f a (x :: l) = maxFold f a l := by
        simp [maxFold, List.foldl_cons, if_neg hax]
      obtain ⟨l1, l2, heq, h1, h2⟩ := maxFold_split f l a
      rw [hstep]
      cases l1 with
      | nil =>
        have ha2 : a = maxFold f a l := by
          simpa using congrArg (fun u => u.headD a) heq
        have hl2 : l = l2 := by
          simpa using congrArg List.tail heq
        refine ⟨[], x :: l, ?_, by simp, ?_⟩
        · simp [← ha2]
        · intro t ht
          rcases List.mem_cons.mp ht with rfl | ht2
          · exact ha2 ▸ le_of_not_lt hax
          · exact h2 t (hl2 ▸ ht2)
      | cons b m =>
        have hab : a = b := by
          simpa using congrArg (fun u => u.headD a) heq
        have hl2 : l = m ++ maxFold f a l :: l2 := by
          simpa using congrArg List.tail heq
        have hfa : f a < f (maxFold f a l) := hab ▸ h1 b (List.mem_cons_self b m)
        refine ⟨a :: x :: m, l2, ?_, ?_, h2⟩
        · rw [List.cons_append, List.cons_append, ← hl2]
        · intro t ht
          rcases List.mem_cons.mp ht with rfl | ht2
          · exact hfa
          · rcases List.mem_cons.mp ht2 with rfl | ht3
            · exact lt_of_le_of_lt (le_of_not_lt hax) hfa
            · exact h1 t (List.mem_cons_of_mem b ht3)

lemma maxBy_eq_none_iff (f : String → ℚ) (l : List String) : maxBy f l = none ↔ l = [] := by
  cases l <;> simp [maxBy]

lemma maxBy_mem (f : String → ℚ) (l : List String) (s : String)
    (h : maxBy f l = some s) : s ∈ l := by
  cases l with
  | nil => cases h
  | cons a l2 =>
    obtain ⟨l1, l3, heq, _, _⟩ := maxFold_split f l2 a
    have hs : maxFold f a l2 = s := by simpa [maxBy] using h
    rw [← hs, heq]
    exact List.mem_append.mpr (Or.inr (List.mem_cons_self _ _))

/-- If `select_next_question` returns a symptom, it is a not-yet-asked member
of the symptom list. -/
lemma selectNext_mem (m : Model) (asked : List String) (s : String)
    (h : selectNextQuestion m asked = some s) : s ∈ m.symptoms ∧ s ∉ asked := by
  have hmem := maxBy_mem _ _ s h
  have hm := List.mem_filter.mp hmem
  exact ⟨hm.1, by simpa using hm.2⟩

/-- **C4**: for every non-exhausted asked set the selector returns the
not-yet-asked symptom of maximal population variance of its conditional
probabilities across the conditions (a missing table entry counting as 0,
via `symptomVariance`), breaking ties in favour of the first candidate in
the original symptom column order: the candidate list (which preserves that
order) splits at the returned symptom with strictly smaller variances before
it and no larger variances after it. -/
theorem selectNext_argmax (m : Model) (asked : List String)
    (hne : m.symptoms.filter (fun t => t ∉ asked) ≠ []) :
    ∃ s l1 l2, selectNextQuestion m asked = some s ∧
      m.symptoms.filter (fun t => t ∉ asked) = l1 ++ s :: l2 ∧
      (∀ t ∈ l1, symptomVariance m t < symptomVariance m s) ∧
      (∀ t ∈ l2, symptomVariance m t ≤ symptomVariance m s) := by
  cases hf : m.symptoms.filter (fun t => t ∉ asked) with
  | nil => exact absurd hf hne
  | cons a l =>
    obtain ⟨l1, l2, heq, h1, h2⟩ := maxFold_split (symptomVariance m) l a
    refine ⟨maxFold (symptomVariance m) a l, l1, l2, ?_, ?_, h1, h2⟩
    · rw [selectNextQuestion, hf]
      rfl
    · exact heq

/-- Witness for C4 at the §8 model with nothing asked: the selector returns
`A` (the variances of `A` and `B` tie at 1/4 and `A` comes first). -/
theorem selectNext_argmax_witness :
    ∃ s l1 l2, selectNextQuestion demoModel [] = some s ∧
      demoModel.symptoms.filter (fun t => t ∉ ([] : List String)) = l1 ++ s :: l2 ∧
      (∀ t ∈ l1, symptomVariance demoModel t < symptomVariance demoModel s) ∧
      (∀ t ∈ l2, symptomVariance demoModel t ≤ symptomVariance demoModel s) :=
  selectNext_argmax demoModel [] (by
    norm_num +decide [demoModel, buildModel, demoDataset])

/-- **C5**: the selector never returns an already-asked symptom, and — for an
asked set contained in the symptom set — it returns `none` exactly when the
asked set equals the full symptom set (extensionally). -/
theorem selectNext_fresh_and_terminal (m : Model) (asked : List String)
    (hsub : ∀ a ∈ asked, a ∈ m.symptoms) :
    (∀ s, selectNextQuestion m asked = some s → s ∉ asked) ∧
    (selectNextQuestion m asked = none ↔ ∀ x, x ∈ asked ↔ x ∈ m.symptoms) := by
  constructor
  · intro s hs
    exact (selectNext_mem m asked s hs).2
  · rw [selectNextQuestion, maxBy_eq_none_iff, List.filter_eq_nil_iff]
    constructor
    · intro hall x
      refine ⟨fun hx => hsub x hx, fun hx => ?_⟩
      by_contra hnx
      exact hall x hx (by simpa using hnx)
    · intro hiff a ha
      have hmem : a ∈ asked := (hiff a).mpr ha
      simp [hmem]

/-- Witness for C5 with `asked = [A]` on the §8 model: the selector returns
`B` (hence nothing already asked), and it is not `none` because `asked` does
not yet cover `{A, B}`. -/
theorem selectNext_fresh_and_terminal_witness :
    (∀ s, selectNextQuestion demoModel ["A"] = some s → s ∉ ["A"]) ∧
    (selectNextQuestion demoModel ["A"] = none ↔ ∀ x, x ∈ ["A"] ↔ x ∈ demoModel.symptoms) :=
  selectNext_fresh_and_terminal demoModel ["A"] (by
    intro a ha
    simp only [List.mem_singleton] at ha
    simp [ha, demoModel, buildModel, demoDataset])

/-! ### Facts about the session (`record_symptom` / `show_final_diagnosis`) -/

lemma recordSymptom_of_terminated (m : Model) (st : SessState) (v : Int)
    (ht : st.terminated = true) : recordSymptom m st v = st := by
  simp [recordSymptom, ht]

lemma recordSymptom_of_no_pending (m : Model) (st : SessState) (v : Int)
    (ht : st.terminated = false) (hn : selectNextQuestion m st.asked = none) :
    recordSymptom m st v = st := by
  simp [recordSymptom, ht, hn]

lemma recordSymptom_of_pending (m : Model) (st : SessState) (v : Int) (q : String)
    (ht : st.terminated = false) (hq : selectNextQuestion m st.asked = some q) :
    recordSymptom m st v =
      { observed := dictInsert st.observed q v
        asked := setInsert st.asked q
        terminated := (selectNextQuestion m (setInsert st.asked q)).isNone } := by
  simp [recordSymptom, ht, hq]

/-- **C7 counterexample**: with a pending question, `record_symptom(5)` —
a value outside `{0,1}` — is not rejected: it records the pair and grows the
asked set, so the claim that such a call raises a StateError and leaves the
state unchanged is false (the code has no StateError at all). -/
theorem answer_out_of_range_accepted :
    (5 : Int) ≠ 0 ∧ (5 : Int) ≠ 1 ∧
    (startSession demoModel).terminated = false ∧
    recordSymptom demoModel (startSession demoModel) 5 =
      { observed := [("A", 5)], asked := ["A"], terminated := false } ∧
    (recordSymptom demoModel (startSession demoModel) 5).asked ≠
      (startSession demoModel).asked := by
  refine ⟨by decide, by decide, ?_, ?_, ?_⟩
  · norm_num +decide [startSession, selectNextQuestion, maxBy, maxFold, symptomVariance,
      variance, demoModel, buildModel, demoDataset, countLabel, condSum, symptomValue,
      List.indexOf?, List.getElem_cons_succ, List.getElem_cons_zero, uniqueFirst,
      uniqueFirstAux]
  · norm_num +decide [recordSymptom, startSession, selectNextQuestion, maxBy, maxFold,
      symptomVariance, variance, demoModel, buildModel, demoDataset, countLabel, condSum,
      symptomValue, List.indexOf?, List.getElem_cons_succ, List.getElem_cons_zero,
      dictInsert, setInsert, uniqueFirst, uniqueFirstAux]
  · norm_num +decide [recordSymptom, startSession, selectNextQuestion, maxBy, maxFold,
      symptomVariance, variance, demoModel, buildModel, demoDataset, countLabel, condSum,
      symptomValue, List.indexOf?, List.getElem_cons_succ, List.getElem_cons_zero,
      dictInsert, setInsert, uniqueFirst, uniqueFirstAux]

/-- **C7 (amended)**: an Answer after termination, or with no pending
question, is silently ignored — a no-op returning the state unchanged, with
no error of any kind — while an Answer with any value whatsoever (including
values outside `{0,1}`) while a question is pending is accepted and recorded
into the Observation and Asked sets. -/
theorem answer_rejection_is_silent_noop (m : Model) (st : SessState) (v : Int) :
    (st.terminated = true → recordSymptom m st v = st) ∧
    (st.terminated = false → selectNextQuestion m st.asked = none →
      recordSymptom m st v = st) ∧
    (∀ q, st.terminated = false → selectNextQuestion m st.asked = some q →
      (recordSymptom m st v).observed = dictInsert st.observed q v ∧
      (recordSymptom m st v).asked = setInsert st.asked q) :=
  ⟨fun ht => recordSymptom_of_terminated m st v ht,
   fun ht hn => recordSymptom_of_no_pending m st v ht hn,
   fun q ht hq => by rw [recordSymptom_of_pending m st v q ht hq]; exact ⟨rfl, rfl⟩⟩

/-- Witness for the amended C7: in a terminated session the call is the
identity on the state. -/
theorem answer_rejection_is_silent_noop_witness :
    recordSymptom demoModel { observed := [], asked := [], terminated := true } 5 =
      { observed := [], asked := [], terminated := true } :=
  (answer_rejection_is_silent_noop demoModel
    { observed := [], asked := [], terminated := true } 5).1 rfl

/-- The session invariant of spec §3: the asked set has no duplicates, is
contained in the symptom set, and coincides with the key set of the
observation map. -/
def SessInv (m : Model) (st : SessState) : Prop :=
  st.asked.Nodup ∧ (∀ a ∈ st.asked, a ∈ m.symptoms) ∧
    (∀ x, x ∈ st.asked ↔ x ∈ st.observed.map Prod.fst)

/-- **C9**: the invariant holds at session start, is preserved by
`record_symptom` and by `show_final_diagnosis`, the asked set never shrinks,
and every accepted answer (not terminated, with a pending question) grows
the asked set by exactly one. -/
theorem session_asked_invariant (m : Model) (st : SessState) (v : Int)
    (h : SessInv m st) :
    SessInv m (startSession m) ∧
    SessInv m (recordSymptom m st v) ∧
    SessInv m (showFinalDiagnosis st) ∧
    (∀ a ∈ st.asked, a ∈ (recordSymptom m st v).asked) ∧
    (st.terminated = false → ∀ q, selectNextQuestion m st.asked = some q →
      (recordSymptom m st v).asked.length = st.asked.length + 1) := by
  have hstart : SessInv m (startSession m) := by
    refine ⟨List.nodup_nil, ?_, ?_⟩ <;> simp [startSession]
  cases ht : st.terminated with
  | true =>
    rw [recordSymptom_of_terminated m st v ht]
    exact ⟨hstart, h, h, fun a ha => ha, fun hf => by cases hf⟩
  | false =>
    cases hq : selectNextQuestion m st.asked with
    | none =>
      rw [recordSymptom_of_no_pending m st v ht hq]
      refine ⟨hstart, h, h, fun a ha => ha, ?_⟩
      intro _ q hq2
      cases hq2
    | some q =>
      have hqm := selectNext_mem m st.asked q hq
      have hobs : q ∉ st.observed.map Prod.fst := fun hk => hqm.2 ((h.2.2 q).mpr hk)
      have hset : setInsert st.asked q = st.asked ++ [q] := by
        simp [setInsert, hqm.2]
      have hdict : dictInsert st.observed q v = st.observed ++ [(q, v)] := by
        simp [dictInsert, hobs]
      rw [recordSymptom_of_pending m st v q ht hq]
      refine ⟨hstart, ⟨?_, ?_, ?_⟩, h, ?_, ?_⟩
      · rw [hset]
        have hmid := @List.nodup_middle String q st.asked []
        rw [List.append_nil] at hmid
        rw [hmid]
        exact List.nodup_cons.mpr ⟨hqm.2, h.1⟩
      · intro a ha
        rw [hset] at ha
        rcases List.mem_append.mp ha with ha2 | ha2
        · exact h.2.1 a ha2
        · simp only [List.mem_singleton] at ha2
          exact ha2 ▸ hqm.1
      · intro x
        rw [hset, hdict, List.map_append, List.mem_append, List.mem_append]
        simp only [List.map_cons, List.map_nil]
        rw [h.2.2 x]
      · intro a ha
        rw [hset]
        exact List.mem_append.mpr (Or.inl ha)
      · intro _ q2 hq2
        simp [hset]

/-- Witness for C9: answering the first question of the §8 model preserves
the invariant and grows the asked set from 0 to 1 element. -/
theorem session_asked_invariant_witness :
    SessInv demoModel (recordSymptom demoModel (startSession demoModel) 1) ∧
    (recordSymptom demoModel (startSession demoModel) 1).asked.length =
      (startSession demoModel).asked.length + 1 := by
  have hinv : SessInv demoModel (startSession demoModel) := by
    refine ⟨List.nodup_nil, ?_, ?_⟩ <;> simp [startSession]
  have h := session_asked_invariant demoModel (startSession demoModel) 1 hinv
  refine ⟨h.2.1, h.2.2.2.2 ?_ "A" ?_⟩
  · norm_num +decide [startSession, selectNextQuestion, maxBy, maxFold, symptomVariance,
      variance, demoModel, buildModel, demoDataset, countLabel, condSum, symptomValue,
      List.indexOf?, List.getElem_cons_succ, List.getElem_cons_zero, uniqueFirst,
      uniqueFirstAux]
  · show selectNextQuestion demoModel (startSession demoModel).asked = some "A"
    norm_num +decide [startSession, selectNextQuestion, maxBy, maxFold, symptomVariance,
      variance, demoModel, buildModel, demoDataset, countLabel, condSum, symptomValue,
      List.indexOf?, List.getElem_cons_succ, List.getElem_cons_zero, uniqueFirst,
      uniqueFirstAux]

/-! ### Facts about model construction errors (or the absence thereof) -/

/-- Modelled from the spec: the DataError condition of §4.1/§7 — fewer than
1 symptom column, fewer than 1 record, or a condition label with zero
supporting records.  The constructor in the code contains no corresponding
check; this predicate only states when the spec demands a failure. -/
def dataErrorCondition (ds : Dataset) : Prop :=
  ds.symptomCols.length < 1 ∨ ds.records.length < 1 ∨
    ∃ c ∈ (buildModel ds).conditions, countLabel ds c = 0

/-- **C6 counterexample**: the constructor performs no validation at all —
`buildModel` is a total function, and on a dataset with zero records (which
the claim says must fail with a DataError and return no partial model) it
returns a degenerate model with an empty condition set and all-zero priors
instead of failing. -/
theorem build_accepts_empty_dataset :
    dataErrorCondition { symptomCols := ["A"], records := [] } ∧
    (buildModel { symptomCols := ["A"], records := [] }).symptoms = ["A"] ∧
    (buildModel { symptomCols := ["A"], records := [] }).conditions = [] ∧
    (buildModel { symptomCols := ["A"], records := [] }).priors "X" = 0 := by
  refine ⟨Or.inr (Or.inl (by decide)), rfl, rfl, ?_⟩
  simp [buildModel, countLabel]

/-- **C6 (amended)**: `buildModel` never fails — every dataset, including
one with zero records or zero symptom columns, produces a model (so no
DataError is ever raised and a degenerate model *is* returned) — while a
condition label with zero supporting records genuinely cannot occur, because
the condition list consists exactly of the labels present in the records, so
the per-condition division is never a division by zero. -/
theorem build_total_and_no_zero_support (ds : Dataset) :
    (buildModel ds).symptoms = ds.symptomCols ∧
    (∀ c ∈ (buildModel ds).conditions, 0 < countLabel ds c) := by
  refine ⟨rfl, ?_⟩
  intro c hc
  have hc2 : c ∈ ds.records.map Prod.snd := by
    have : c ∈ uniqueFirst (ds.records.map Prod.snd) := hc
    exact (mem_uniqueFirst c _).mp this
  rcases List.mem_map.mp hc2 with ⟨r, hr, rfl⟩
  have hmem : r ∈ ds.records.filter (fun x => x.2 = r.2) :=
    List.mem_filter.mpr ⟨hr, by simp⟩
  exact List.length_pos.mpr (List.ne_nil_of_mem hmem)

/-- Witness for the amended C6: in the §8 dataset the condition `X` has
3 > 0 supporting records. -/
theorem build_total_and_no_zero_support_witness :
    0 < countLabel demoDataset "X" :=
  (build_total_and_no_zero_support demoDataset).2 "X" (by
    norm_num +decide [buildModel, demoDataset, uniqueFirst, uniqueFirstAux])

/-- **C8 counterexample**: in the §8 model `conditionals[X][B]` is present
and equal to 0; with the single observation `{B ↦ 1}` the floor is *not*
substituted and X's unnormalized score collapses to exactly 0 (its prior
3/4 is nonzero, so the zero comes from the zero conditional factor). -/
theorem present_zero_entry_collapses_score :
    (buildModel demoDataset).condTable "X" "B" = some 0 ∧
    (buildModel demoDataset).priors "X" = 3 / 4 ∧
    unnormScore (buildModel demoDataset) [("B", 1)] "X" = 0 := by
  refine ⟨?_, ?_, ?_⟩
  · norm_num +decide [buildModel, demoDataset, countLabel, condSum, symptomValue,
      List.indexOf?, List.getElem_cons_succ, List.getElem_cons_zero]
  · norm_num +decide [buildModel, demoDataset, countLabel]
  · norm_num +decide [unnormScore, factor, buildModel, demoDataset, countLabel, condSum,
      symptomValue, List.indexOf?, List.getElem_cons_succ, List.getElem_cons_zero]

/-- **C8 (amended)**: the floor `1e-6` is substituted only when the table
has *no* entry for the (condition, symptom) pair; a present entry `p` is
used unchanged — the factor is exactly `p` for a 1-answer and `1 - p` for a
0-answer — so a present zero entry (or a present one entry under a 0-answer)
collapses the condition's unnormalized score to exactly zero. -/
theorem floor_only_for_missing_entry (m : Model) (c s : String) (p : ℚ) :
    (m.condTable c s = some p →
      factor m c (s, 1) = p ∧ factor m c (s, 0) = 1 - p ∧
      (p = 0 → unnormScore m [(s, 1)] c = 0)) ∧
    (m.condTable c s = none →
      factor m c (s, 1) = floorProb ∧ factor m c (s, 0) = 1 - floorProb) := by
  constructor
  · intro h
    refine ⟨by simp [factor, h], by simp [factor, h], ?_⟩
    intro hp
    rw [unnormScore_eq]
    simp [factor, h, hp]
  · intro hnone
    exact ⟨by simp [factor, hnone], by simp [factor, hnone]⟩

/-- Witness for the amended C8: at `(X, B)` of the §8 model the stored entry
0 is used as-is, and at the absent symptom `C` the floor is used. -/
theorem floor_only_for_missing_entry_witness :
    factor (buildModel demoDataset) "X" ("B", 1) = 0 ∧
    factor (buildModel demoDataset) "X" ("C", 1) = floorProb := by
  have h0 : (buildModel demoDataset).condTable "X" "B" = some 0 := by
    norm_num +decide [buildModel, demoDataset, countLabel, condSum, symptomValue,
      List.indexOf?, List.getElem_cons_succ, List.getElem_cons_zero]
  have hn : (buildModel demoDataset).condTable "X" "C" = none := by
    norm_num +decide [buildModel, demoDataset]
  exact ⟨((floor_only_for_missing_entry (buildModel demoDataset) "X" "B" 0).1 h0).1,
    ((floor_only_for_missing_entry (buildModel demoDataset) "X" "C" 0).2 hn).1⟩

end DiagnosticAgent
